import Mathlib

/-!
# Verification of the resizer image-processing core

Shallow embedding of `src/image-processor.js` (class `ImageProcessor`):
the dimension planner (`calculateDimensions`, `fitCover`, `fitContain`),
the option validator (`validateOptions`), and the four resampling
strategies (`nearestNeighbor`, `bilinear`, `bicubic`, `lanczos`).

JavaScript numbers are modelled as exact rationals (`ℚ`), pixel bytes as
naturals, and `Math.round` / `Math.floor` by their exact counterparts.
Absent option fields are `Option.none`; JavaScript truthiness of a
number-or-undefined value (`undefined` and `0` are falsy) is `qTruthy`.
-/

/-- JavaScript `Math.round`: rounds half toward positive infinity,
i.e. `Math.round v = ⌊v + 1/2⌋`. -/
def jsRound (q : ℚ) : ℤ := ⌊q + 1 / 2⌋

/-- JavaScript `a || 1` for a number `a`: gives `1` when `a` is `0` (falsy),
otherwise `a`.  Used by the source as `(target - 1 || 1)`. -/
def orOne (q : ℚ) : ℚ := if q = 0 then 1 else q

/-- JavaScript truthiness of a number-valued variable that may be
`undefined`: `undefined` and `0` are falsy, every other number is truthy. -/
def qTruthy (o : Option ℚ) : Bool :=
  match o with
  | none => false
  | some q => q != 0

/-- The options record destructured by `calculateDimensions` and checked by
`validateOptions`.  A missing field is `none`.  Numeric fields are
rationals; `fit` and `algorithm` are strings. -/
structure ResizeOptions where
  width : Option ℚ
  height : Option ℚ
  scale : Option ℚ
  aspectRatio : Option ℚ
  fit : Option String
  algorithm : Option String
  quality : Option ℚ
deriving DecidableEq

/-- The record `{ width, height }` returned by `calculateDimensions`. -/
structure Dimensions where
  width : ℚ
  height : ℚ
deriving DecidableEq

/-- `fitCover(srcWidth, srcHeight, targetWidth, targetHeight)` from the
source: if the source aspect exceeds the target aspect the height is kept
and the width is `Math.round(targetHeight * srcAspect)`, otherwise the
width is kept and the height is `Math.round(targetWidth / srcAspect)`. -/
def fitCover (srcWidth srcHeight targetWidth targetHeight : ℚ) : Dimensions :=
  let srcAspect := srcWidth / srcHeight
  let targetAspect := targetWidth / targetHeight
  if srcAspect > targetAspect then
    ⟨((jsRound (targetHeight * srcAspect) : ℤ) : ℚ), targetHeight⟩
  else
    ⟨targetWidth, ((jsRound (targetWidth / srcAspect) : ℤ) : ℚ)⟩

/-- `fitContain(srcWidth, srcHeight, targetWidth, targetHeight)` from the
source: the mirror image of `fitCover`. -/
def fitContain (srcWidth srcHeight targetWidth targetHeight : ℚ) : Dimensions :=
  let srcAspect := srcWidth / srcHeight
  let targetAspect := targetWidth / targetHeight
  if srcAspect > targetAspect then
    ⟨targetWidth, ((jsRound (targetWidth / srcAspect) : ℤ) : ℚ)⟩
  else
    ⟨((jsRound (targetHeight * srcAspect) : ℤ) : ℚ), targetHeight⟩

/-- Steps 1-4 of `calculateDimensions`: seed from `width`/`height`, let a
truthy `scale` override both, derive a missing dimension from
`aspectRatio` when exactly one is truthy, and default a falsy dimension to
the source dimension.  The two `aspectRatio` branches of the source are
mutually exclusive (each requires the other target to be falsy), so the
parallel formulation below is equivalent to the sequential one. -/
def step4Dims (srcWidth srcHeight : ℚ) (options : ResizeOptions) : ℚ × ℚ :=
  let targetWidth1 : Option ℚ :=
    if qTruthy options.scale then
      some ((jsRound (srcWidth * options.scale.getD 0) : ℤ) : ℚ)
    else options.width
  let targetHeight1 : Option ℚ :=
    if qTruthy options.scale then
      some ((jsRound (srcHeight * options.scale.getD 0) : ℤ) : ℚ)
    else options.height
  let targetWidth2 : Option ℚ :=
    if qTruthy options.aspectRatio = true ∧ qTruthy targetHeight1 = true ∧
        qTruthy targetWidth1 = false then
      some ((jsRound (targetHeight1.getD 0 * options.aspectRatio.getD 0) : ℤ) : ℚ)
    else targetWidth1
  let targetHeight2 : Option ℚ :=
    if qTruthy options.aspectRatio = true ∧ qTruthy targetWidth1 = true ∧
        qTruthy targetHeight1 = false then
      some ((jsRound (targetWidth1.getD 0 / options.aspectRatio.getD 0) : ℤ) : ℚ)
    else targetHeight1
  let targetWidth3 : ℚ := if qTruthy targetWidth2 then targetWidth2.getD 0 else srcWidth
  let targetHeight3 : ℚ := if qTruthy targetHeight2 then targetHeight2.getD 0 else srcHeight
  (targetWidth3, targetHeight3)

/-- `calculateDimensions(srcWidth, srcHeight, options)` from the source:
steps 1-4 as in `step4Dims`, then the fit dispatch.  `hasBothDimensions`
is the truthiness of the *original* `options.width && options.height`.
The source's `else if (fit === 'fill')` branch returns the same record as
the final fall-through; both are kept for fidelity. -/
def calculateDimensions (srcWidth srcHeight : ℚ) (options : ResizeOptions) : Dimensions :=
  let targetWidth3 := (step4Dims srcWidth srcHeight options).1
  let targetHeight3 := (step4Dims srcWidth srcHeight options).2
  if qTruthy options.width = true ∧ qTruthy options.height = true ∧
      options.fit = some "cover" then
    fitCover srcWidth srcHeight targetWidth3 targetHeight3
  else if qTruthy options.width = true ∧ qTruthy options.height = true ∧
      options.fit = some "contain" then
    fitContain srcWidth srcHeight targetWidth3 targetHeight3
  else if options.fit = some "fill" then
    ⟨targetWidth3, targetHeight3⟩
  else
    ⟨targetWidth3, targetHeight3⟩

/-- The property names every plain JavaScript object literal inherits from
`Object.prototype`.  The source's `this.algorithms` is the object literal
`{ nearest, bilinear, bicubic, lanczos }`, so the lookup
`this.algorithms[k]` walks the prototype chain: for each of these names it
yields an inherited function (or, for `__proto__`, the prototype object
itself), all of which are truthy. -/
def objectPrototypeKeys : List String :=
  ["constructor", "hasOwnProperty", "isPrototypeOf", "propertyIsEnumerable",
   "toLocaleString", "toString", "valueOf", "__proto__", "__defineGetter__",
   "__defineSetter__", "__lookupGetter__", "__lookupSetter__"]

/-- `validateOptions(options)` from the source.  Each numeric rule fires on
a present (`!== undefined`) field that is not positive (resp. outside
`[0,1]` for quality); the `fit` and `algorithm` rules fire only on a
*truthy* string (JavaScript `options.fit && ...`), so a present empty
string is skipped.  The `fit` rule uses `Array.includes`, an exact
membership test; the `algorithm` rule instead tests
`!this.algorithms[options.algorithm]`, an object-property lookup that also
finds the truthy properties inherited from `Object.prototype`
(`objectPrototypeKeys`), so those names do not fire the rule either.  The
`typeof !== 'number'` disjuncts cannot fire in this model, where every
present numeric field is a rational. -/
def validateOptions (options : ResizeOptions) : List String :=
  (match options.width with
   | some w => if w ≤ 0 then ["width must be a positive number"] else []
   | none => []) ++
  (match options.height with
   | some h => if h ≤ 0 then ["height must be a positive number"] else []
   | none => []) ++
  (match options.scale with
   | some s => if s ≤ 0 then ["scale must be a positive number"] else []
   | none => []) ++
  (match options.aspectRatio with
   | some a => if a ≤ 0 then ["aspectRatio must be a positive number"] else []
   | none => []) ++
  (match options.fit with
   | some f =>
      if f ≠ "" ∧ f ∉ (["cover", "contain", "fill"] : List String) then
        ["fit must be one of: cover, contain, fill"]
      else []
   | none => []) ++
  (match options.algorithm with
   | some a =>
      if a ≠ "" ∧ a ∉ (["nearest", "bilinear", "bicubic", "lanczos"] : List String) ∧
          a ∉ objectPrototypeKeys then
        ["algorithm must be one of: nearest, bilinear, bicubic, lanczos"]
      else []
   | none => []) ++
  (match options.quality with
   | some q => if q < 0 ∨ 1 < q then ["quality must be a number between 0 and 1"] else []
   | none => [])

/-!
## Pixel buffers and resampling strategies

A `PixelBuffer` is an RGBA8 grid: `data` maps a flat byte index
`(y * width + x) * 4 + c` to the byte stored there (the source only ever
reads in-bounds indices, so `data` may be arbitrary elsewhere).  Each
resampler is embedded as the function giving the value the strategy
stores at output position `(x, y)`, channel `c`: the source's loops fill
each output byte independently from the source buffer alone.
-/

/-- A decoded RGBA8 pixel grid: `width`, `height` and the byte at each
flat index `(y * width + x) * 4 + c`. -/
structure PixelBuffer where
  width : ℕ
  height : ℕ
  data : ℤ → ℕ

/-- Every in-bounds byte of the buffer is a valid uint8 value. -/
def Wellformed (b : PixelBuffer) : Prop :=
  ∀ i j c : ℤ, 0 ≤ i → i < b.width → 0 ≤ j → j < b.height → 0 ≤ c → c < 4 →
    b.data ((j * b.width + i) * 4 + c) ≤ 255

/-- The edge-anchored coordinate mapping shared by bilinear, bicubic and
lanczos: output index `i` maps to `i * (srcN - 1) / (targetN - 1 || 1)`. -/
def srcCoord (srcN targetN i : ℕ) : ℚ :=
  (i : ℚ) * (((srcN : ℚ) - 1) / orOne ((targetN : ℚ) - 1))

/-- `Math.min(Math.max(v, 0), n - 1)`: clamp an index to `[0, n-1]`. -/
def clampIdx (v n : ℤ) : ℤ := min (max v 0) (n - 1)

/-- The clamped neighbor index `Math.min(Math.max(floor(srcC) + d, 0), n - 1)`
used by the bicubic and lanczos 2-D loops. -/
def neighborIdx (srcC : ℚ) (n d : ℤ) : ℤ := clampIdx (⌊srcC⌋ + d) n

/-- `Math.floor(i * (srcN / targetN))`: the non-edge-anchored source index
of `nearestNeighbor`. -/
def nearestSrc (srcN targetN i : ℕ) : ℤ := ⌊(i : ℚ) * ((srcN : ℚ) / (targetN : ℚ))⌋

/-- `nearestNeighbor` from the source, per output byte: the four channel
bytes of the single source pixel `(floor(x*srcW/targetW),
floor(y*srcH/targetH))` are copied verbatim. -/
def nearestNeighborAt (src : PixelBuffer) (targetWidth targetHeight x y c : ℕ) : ℕ :=
  src.data ((nearestSrc src.height targetHeight y * (src.width : ℤ) +
    nearestSrc src.width targetWidth x) * 4 + (c : ℤ))

/-- `bilinear` from the source, per output byte: the fractional source
coordinate is split into integer corners `x0,x1,y0,y1` and fractional
parts `fx,fy`, the four corner bytes are blended, and the blend is passed
through `Math.round`. -/
def bilinearAt (src : PixelBuffer) (targetWidth targetHeight x y c : ℕ) : ℤ :=
  let srcX : ℚ := srcCoord src.width targetWidth x
  let srcY : ℚ := srcCoord src.height targetHeight y
  let x0 : ℤ := ⌊srcX⌋
  let y0 : ℤ := ⌊srcY⌋
  let x1 : ℤ := min (x0 + 1) ((src.width : ℤ) - 1)
  let y1 : ℤ := min (y0 + 1) ((src.height : ℤ) - 1)
  let fx : ℚ := srcX - (x0 : ℚ)
  let fy : ℚ := srcY - (y0 : ℚ)
  let v00 : ℚ := src.data ((y0 * (src.width : ℤ) + x0) * 4 + (c : ℤ))
  let v10 : ℚ := src.data ((y0 * (src.width : ℤ) + x1) * 4 + (c : ℤ))
  let v01 : ℚ := src.data ((y1 * (src.width : ℤ) + x0) * 4 + (c : ℤ))
  let v11 : ℚ := src.data ((y1 * (src.width : ℤ) + x1) * 4 + (c : ℤ))
  let v0 : ℚ := v00 * (1 - fx) + v10 * fx
  let v1 : ℚ := v01 * (1 - fx) + v11 * fx
  let v : ℚ := v0 * (1 - fy) + v1 * fy
  jsRound v

/-- `cubicKernel` from `bicubic`: `1 - 2a² + a³` for `a = |t| ≤ 1`,
`-4 + 8a - 5a² + a³` for `1 < a < 2`, else `0`. -/
def cubicKernel (t : ℚ) : ℚ :=
  let a := |t|
  if a ≤ 1 then 1 - 2 * a ^ 2 + a ^ 3
  else if a < 2 then -4 + 8 * a - 5 * a ^ 2 + a ^ 3
  else 0

/-- `lanczosKernel` from `lanczos`, parameterized by the `sinc` function:
`1` at `0`, `sinc(t) * sinc(t/3)` for `|t| < 3`, else `0`.  The source's
`sinc` is `x == 0 ? 1 : sin(πx)/(πx)`, a transcendental function with no
exact rational embedding, so theorems about `lanczos` quantify over
`sinc` and assume only properties the true function satisfies. -/
def lanczosKernel (sinc : ℚ → ℚ) (t : ℚ) : ℚ :=
  let a := |t|
  if a = 0 then 1
  else if a < 3 then sinc t * sinc (t / 3)
  else 0

/-- The weight sum accumulated by the shared bicubic/lanczos loop at one
output pixel: `Σ_dy Σ_dx k(srcX - px) * k(srcY - py)` over the offset
window, with edge-clamped `px`, `py`. -/
def kernelWeightSum (k : ℚ → ℚ) (offs : List ℤ) (src : PixelBuffer) (srcX srcY : ℚ) : ℚ :=
  (offs.map fun dy => (offs.map fun dx =>
    k (srcX - (neighborIdx srcX (src.width : ℤ) dx : ℚ)) *
    k (srcY - (neighborIdx srcY (src.height : ℤ) dy : ℚ))).sum).sum

/-- The weighted accumulator (`result` before normalization) of the shared
bicubic/lanczos loop: `Σ_dy Σ_dx weight * srcData[pixelIdx + c]`. -/
def kernelAccum (k : ℚ → ℚ) (offs : List ℤ) (src : PixelBuffer) (srcX srcY : ℚ) (c : ℕ) : ℚ :=
  (offs.map fun dy => (offs.map fun dx =>
    k (srcX - (neighborIdx srcX (src.width : ℤ) dx : ℚ)) *
    k (srcY - (neighborIdx srcY (src.height : ℤ) dy : ℚ)) *
    (src.data ((neighborIdx srcY (src.height : ℤ) dy * (src.width : ℤ) +
      neighborIdx srcX (src.width : ℤ) dx) * 4 + (c : ℤ)) : ℚ)).sum).sum

/-- The shared per-output-byte computation of `bicubic` and `lanczos`:
accumulate kernel-weighted neighbor bytes and the weight sum over the
offset window, divide unless the weight sum is exactly `0` (the source's
`if (weightSum !== 0) result /= weightSum`), then
`Math.max(0, Math.min(255, Math.round(result)))`. -/
def kernelResampleAt (k : ℚ → ℚ) (offs : List ℤ) (src : PixelBuffer)
    (targetWidth targetHeight x y c : ℕ) : ℤ :=
  let srcX : ℚ := srcCoord src.width targetWidth x
  let srcY : ℚ := srcCoord src.height targetHeight y
  let weightSum : ℚ := kernelWeightSum k offs src srcX srcY
  let result0 : ℚ := kernelAccum k offs src srcX srcY c
  let result : ℚ := if weightSum ≠ 0 then result0 / weightSum else result0
  max 0 (min 255 (jsRound result))

/-- The 4×4 neighborhood offsets `dx, dy ∈ [-1, 2]` of `bicubic`. -/
def cubicOffs : List ℤ := [-1, 0, 1, 2]

/-- The 6×6 neighborhood offsets `dx, dy ∈ [-LANCZOS_SIZE+1, LANCZOS_SIZE]`
with `LANCZOS_SIZE = 3` of `lanczos`. -/
def lanczosOffs : List ℤ := [-2, -1, 0, 1, 2, 3]

/-- `bicubic` from the source, per output byte. -/
def bicubicAt (src : PixelBuffer) (targetWidth targetHeight x y c : ℕ) : ℤ :=
  kernelResampleAt cubicKernel cubicOffs src targetWidth targetHeight x y c

/-- `lanczos` from the source, per output byte, parameterized by `sinc`. -/
def lanczosAt (sinc : ℚ → ℚ) (src : PixelBuffer) (targetWidth targetHeight x y c : ℕ) : ℤ :=
  kernelResampleAt (lanczosKernel sinc) lanczosOffs src targetWidth targetHeight x y c

/-!
## Helper lemmas
-/

theorem jsRound_intCast (n : ℤ) : jsRound (n : ℚ) = n := by
  unfold jsRound
  rw [Int.floor_eq_iff]
  constructor
  · linarith
  · norm_num

theorem jsRound_natCast (n : ℕ) : jsRound (n : ℚ) = n := by
  have : ((n : ℤ) : ℚ) = (n : ℚ) := by push_cast; rfl
  rw [← this, jsRound_intCast]

theorem jsRound_nonneg (q : ℚ) (h : 0 ≤ q) : 0 ≤ jsRound q := by
  unfold jsRound
  rw [Int.le_floor]
  push_cast
  linarith

theorem jsRound_le_of_le (q : ℚ) (n : ℤ) (h : q ≤ n) : jsRound q ≤ n := by
  unfold jsRound
  rw [← Int.lt_add_one_iff, Int.floor_lt]
  push_cast
  linarith

theorem le_jsRound_of_le (n : ℤ) (q : ℚ) (h : (n : ℚ) ≤ q) : n ≤ jsRound q := by
  unfold jsRound
  rw [Int.le_floor]
  linarith

theorem srcCoord_nonneg (srcN targetN i : ℕ) (hs : 1 ≤ srcN) (ht : 1 ≤ targetN) :
    0 ≤ srcCoord srcN targetN i := by
  unfold srcCoord orOne
  have h1 : (0 : ℚ) ≤ (srcN : ℚ) - 1 := by
    have : (1 : ℚ) ≤ (srcN : ℚ) := by exact_mod_cast hs
    linarith
  have hi0 : (0 : ℚ) ≤ (i : ℚ) := by positivity
  split_ifs with h
  · rw [div_one]
    exact mul_nonneg hi0 h1
  · have ht1 : (1 : ℚ) ≤ (targetN : ℚ) := by exact_mod_cast ht
    have ht2 : (0 : ℚ) < (targetN : ℚ) - 1 := lt_of_le_of_ne (by linarith) (Ne.symm h)
    exact mul_nonneg hi0 (div_nonneg h1 (le_of_lt ht2))

theorem srcCoord_le (srcN targetN i : ℕ) (hs : 1 ≤ srcN) (ht : 1 ≤ targetN)
    (hi : i < targetN) : srcCoord srcN targetN i ≤ (srcN : ℚ) - 1 := by
  unfold srcCoord orOne
  have h1 : (0 : ℚ) ≤ (srcN : ℚ) - 1 := by
    have : (1 : ℚ) ≤ (srcN : ℚ) := by exact_mod_cast hs
    linarith
  rcases Nat.lt_or_ge i 1 with h0 | h0
  · interval_cases i
    split_ifs <;> simp <;> linarith
  · have ht2 : 2 ≤ targetN := by omega
    have htq : (2 : ℚ) ≤ (targetN : ℚ) := by exact_mod_cast ht2
    have hne : ((targetN : ℚ) - 1) ≠ 0 := by intro h; linarith
    rw [if_neg hne]
    have hiq : (i : ℚ) ≤ (targetN : ℚ) - 1 := by
      have : (i : ℚ) + 1 ≤ (targetN : ℚ) := by exact_mod_cast hi
      linarith
    have hpos : (0 : ℚ) < (targetN : ℚ) - 1 := by linarith
    calc (i : ℚ) * (((srcN : ℚ) - 1) / ((targetN : ℚ) - 1))
        ≤ ((targetN : ℚ) - 1) * (((srcN : ℚ) - 1) / ((targetN : ℚ) - 1)) := by
          apply mul_le_mul_of_nonneg_right hiq
          exact div_nonneg h1 (le_of_lt hpos)
      _ = (srcN : ℚ) - 1 := by field_simp

theorem floor_srcCoord_nonneg (srcN targetN i : ℕ) (hs : 1 ≤ srcN) (ht : 1 ≤ targetN) :
    0 ≤ ⌊srcCoord srcN targetN i⌋ :=
  Int.le_floor.mpr (by simpa using srcCoord_nonneg srcN targetN i hs ht)

theorem floor_srcCoord_le (srcN targetN i : ℕ) (hs : 1 ≤ srcN) (ht : 1 ≤ targetN)
    (hi : i < targetN) : ⌊srcCoord srcN targetN i⌋ ≤ (srcN : ℤ) - 1 := by
  have h := srcCoord_le srcN targetN i hs ht hi
  have h2 : (⌊srcCoord srcN targetN i⌋ : ℚ) ≤ (srcN : ℚ) - 1 :=
    le_trans (Int.floor_le _) h
  exact_mod_cast h2

theorem clampIdx_nonneg (v n : ℤ) (hn : 1 ≤ n) : 0 ≤ clampIdx v n := by
  unfold clampIdx
  exact le_min (le_max_right v 0) (by omega)

theorem clampIdx_le (v n : ℤ) : clampIdx v n ≤ n - 1 := min_le_right _ _

theorem clampIdx_eq_self (v n : ℤ) (h0 : 0 ≤ v) (h1 : v ≤ n - 1) : clampIdx v n = v := by
  unfold clampIdx
  rw [max_eq_left h0, min_eq_left h1]

theorem sum_map_nonneg (l : List ℤ) (g : ℤ → ℚ) (h : ∀ b ∈ l, 0 ≤ g b) :
    0 ≤ (l.map g).sum := by
  induction l with
  | nil => simp
  | cons b t ih =>
      simp only [List.map_cons, List.sum_cons]
      have h1 := h b (List.mem_cons_self b t)
      have h2 := ih (fun x hx => h x (List.mem_cons_of_mem b hx))
      linarith

theorem sum_map_pos (l : List ℤ) (g : ℤ → ℚ) (a : ℤ) (ha : a ∈ l)
    (h0 : ∀ b ∈ l, 0 ≤ g b) (hpos : 0 < g a) : 0 < (l.map g).sum := by
  induction l with
  | nil => simp at ha
  | cons b t ih =>
      simp only [List.map_cons, List.sum_cons]
      rcases List.mem_cons.mp ha with rfl | hat
      · have h2 := sum_map_nonneg t g (fun x hx => h0 x (List.mem_cons_of_mem a hx))
        linarith
      · have h1 := h0 b (List.mem_cons_self b t)
        have h2 := ih hat (fun x hx => h0 x (List.mem_cons_of_mem b hx))
        linarith

theorem cubicKernel_nonneg (t : ℚ) : 0 ≤ cubicKernel t := by
  simp only [cubicKernel]
  have ha : 0 ≤ |t| := abs_nonneg t
  split_ifs with h1 h2
  · have k1 : (0 : ℚ) ≤ 1 - |t| := by linarith
    have k2 : (0 : ℚ) ≤ 1 + |t| - |t| ^ 2 := by nlinarith
    nlinarith [mul_nonneg k1 k2]
  · have k1 : (0 : ℚ) ≤ |t| - 1 := by linarith
    nlinarith [mul_nonneg k1 (sq_nonneg (|t| - 2))]
  · exact le_refl 0

theorem cubicKernel_pos_of_fract (f : ℚ) (h0 : 0 ≤ f) (h1 : f < 1) :
    0 < cubicKernel f := by
  simp only [cubicKernel]
  rw [abs_of_nonneg h0, if_pos (by linarith : f ≤ 1)]
  have k1 : (0 : ℚ) < 1 - f := by linarith
  have k2 : (0 : ℚ) < 1 + f - f ^ 2 := by nlinarith
  nlinarith [mul_pos k1 k2]

theorem cubicKernel_zero : cubicKernel 0 = 1 := by
  simp [cubicKernel]

theorem cubicKernel_neg_int (p : ℤ) (hp : 1 ≤ p) : cubicKernel (-(p : ℚ)) = 0 := by
  simp only [cubicKernel]
  have hpq : (1 : ℚ) ≤ (p : ℚ) := by exact_mod_cast hp
  have ha : |(-(p : ℚ))| = (p : ℚ) := by
    rw [abs_neg, abs_of_nonneg (by linarith)]
  rw [ha]
  rcases eq_or_lt_of_le hp with h | h
  · rw [← h]
    norm_num
  · have h2 : (2 : ℚ) ≤ (p : ℚ) := by exact_mod_cast h
    rw [if_neg (by linarith), if_neg (by linarith)]

theorem lanczosKernel_zero (sinc : ℚ → ℚ) : lanczosKernel sinc 0 = 1 := by
  simp [lanczosKernel]

theorem lanczosKernel_neg_int (sinc : ℚ → ℚ) (hs1 : sinc (-1) = 0) (hs2 : sinc (-2) = 0)
    (p : ℤ) (hp : 1 ≤ p) : lanczosKernel sinc (-(p : ℚ)) = 0 := by
  simp only [lanczosKernel]
  have hpq : (1 : ℚ) ≤ (p : ℚ) := by exact_mod_cast hp
  have ha : |(-(p : ℚ))| = (p : ℚ) := by
    rw [abs_neg, abs_of_nonneg (by linarith)]
  rw [ha, if_neg (by linarith)]
  rcases lt_or_ge p 3 with h | h
  · rw [if_pos (by exact_mod_cast h)]
    interval_cases p
    · push_cast
      rw [hs1, zero_mul]
    · push_cast
      rw [hs2, zero_mul]
  · rw [if_neg (not_lt.mpr (by exact_mod_cast h : (3 : ℚ) ≤ (p : ℚ)))]

theorem convex_bounds (a b t : ℚ) (ht0 : 0 ≤ t) (ht1 : t ≤ 1)
    (ha0 : 0 ≤ a) (ha1 : a ≤ 255) (hb0 : 0 ≤ b) (hb1 : b ≤ 255) :
    0 ≤ a * (1 - t) + b * t ∧ a * (1 - t) + b * t ≤ 255 := by
  constructor <;> nlinarith

theorem kernelAccum_eq_weightSum_mul (k : ℚ → ℚ) (offs : List ℤ) (src : PixelBuffer)
    (srcX srcY : ℚ) (c : ℕ) (u : ℕ)
    (h : ∀ dy ∈ offs, ∀ dx ∈ offs,
      k (srcX - (neighborIdx srcX (src.width : ℤ) dx : ℚ)) *
        k (srcY - (neighborIdx srcY (src.height : ℤ) dy : ℚ)) = 0 ∨
      src.data ((neighborIdx srcY (src.height : ℤ) dy * (src.width : ℤ) +
        neighborIdx srcX (src.width : ℤ) dx) * 4 + (c : ℤ)) = u) :
    kernelAccum k offs src srcX srcY c = kernelWeightSum k offs src srcX srcY * (u : ℚ) := by
  unfold kernelAccum kernelWeightSum
  rw [← List.sum_map_mul_right]
  refine congrArg List.sum (List.map_congr_left ?_)
  intro dy hdy
  rw [← List.sum_map_mul_right]
  refine congrArg List.sum (List.map_congr_left ?_)
  intro dx hdx
  rcases h dy hdy dx hdx with hw | hu
  · rw [hw, zero_mul, zero_mul]
  · rw [hu]

theorem neighborIdx_nonneg (sC : ℚ) (n d : ℤ) (hn : 1 ≤ n) : 0 ≤ neighborIdx sC n d :=
  clampIdx_nonneg _ _ hn

theorem neighborIdx_le (sC : ℚ) (n d : ℤ) : neighborIdx sC n d ≤ n - 1 :=
  clampIdx_le _ _

theorem kernelResampleAt_bounds (k : ℚ → ℚ) (offs : List ℤ) (src : PixelBuffer)
    (targetWidth targetHeight x y c : ℕ) :
    0 ≤ kernelResampleAt k offs src targetWidth targetHeight x y c ∧
    kernelResampleAt k offs src targetWidth targetHeight x y c ≤ 255 := by
  simp only [kernelResampleAt]
  constructor
  · exact le_max_left 0 _
  · exact max_le (by norm_num) (min_le_left 255 _)

theorem kernelResampleAt_of_accum (k : ℚ → ℚ) (offs : List ℤ) (src : PixelBuffer)
    (targetWidth targetHeight x y c : ℕ) (u : ℕ) (hu : u ≤ 255)
    (hacc : kernelAccum k offs src (srcCoord src.width targetWidth x)
        (srcCoord src.height targetHeight y) c =
      kernelWeightSum k offs src (srcCoord src.width targetWidth x)
        (srcCoord src.height targetHeight y) * (u : ℚ))
    (hws : kernelWeightSum k offs src (srcCoord src.width targetWidth x)
        (srcCoord src.height targetHeight y) ≠ 0) :
    kernelResampleAt k offs src targetWidth targetHeight x y c = u := by
  simp only [kernelResampleAt]
  rw [if_pos hws, hacc, mul_comm, mul_div_assoc, div_self hws, mul_one, jsRound_natCast]
  have h1 : ((u : ℕ) : ℤ) ≤ 255 := by exact_mod_cast hu
  rw [min_eq_right h1, max_eq_right (Int.natCast_nonneg u)]

theorem kernelResampleAt_uniform (k : ℚ → ℚ) (offs : List ℤ) (src : PixelBuffer)
    (targetWidth targetHeight x y c : ℕ) (col : ℕ)
    (hw : 1 ≤ src.width) (hh : 1 ≤ src.height)
    (huni : ∀ i j : ℤ, 0 ≤ i → i < (src.width : ℤ) → 0 ≤ j → j < (src.height : ℤ) →
      src.data ((j * (src.width : ℤ) + i) * 4 + (c : ℤ)) = col)
    (hcol : col ≤ 255)
    (hws : kernelWeightSum k offs src (srcCoord src.width targetWidth x)
        (srcCoord src.height targetHeight y) ≠ 0) :
    kernelResampleAt k offs src targetWidth targetHeight x y c = col := by
  apply kernelResampleAt_of_accum k offs src targetWidth targetHeight x y c col hcol _ hws
  apply kernelAccum_eq_weightSum_mul
  intro dy hdy dx hdx
  right
  have hwz : (1 : ℤ) ≤ (src.width : ℤ) := by exact_mod_cast hw
  have hhz : (1 : ℤ) ≤ (src.height : ℤ) := by exact_mod_cast hh
  apply huni
  · exact neighborIdx_nonneg _ _ _ hwz
  · have := neighborIdx_le (srcCoord src.width targetWidth x) (src.width : ℤ) dx
    omega
  · exact neighborIdx_nonneg _ _ _ hhz
  · have := neighborIdx_le (srcCoord src.height targetHeight y) (src.height : ℤ) dy
    omega

theorem neighborIdx_center (sC : ℚ) (n : ℤ) (h0 : 0 ≤ sC) (h1 : sC ≤ (n : ℚ) - 1) :
    neighborIdx sC n 0 = ⌊sC⌋ := by
  unfold neighborIdx
  rw [add_zero]
  apply clampIdx_eq_self
  · exact Int.le_floor.mpr (by simpa using h0)
  · have h2 : (⌊sC⌋ : ℚ) ≤ (n : ℚ) - 1 := le_trans (Int.floor_le sC) h1
    have h3 : (⌊sC⌋ : ℚ) ≤ ((n - 1 : ℤ) : ℚ) := by push_cast; linarith
    exact_mod_cast h3

theorem cubicWeightSum_pos (src : PixelBuffer) (targetWidth targetHeight x y : ℕ)
    (hw : 1 ≤ src.width) (hh : 1 ≤ src.height) (htW : 1 ≤ targetWidth)
    (htH : 1 ≤ targetHeight) (hx : x < targetWidth) (hy : y < targetHeight) :
    0 < kernelWeightSum cubicKernel cubicOffs src (srcCoord src.width targetWidth x)
      (srcCoord src.height targetHeight y) := by
  have hX0 := srcCoord_nonneg src.width targetWidth x hw htW
  have hX1 := srcCoord_le src.width targetWidth x hw htW hx
  have hY0 := srcCoord_nonneg src.height targetHeight y hh htH
  have hY1 := srcCoord_le src.height targetHeight y hh htH hy
  have hcx : 0 < cubicKernel (srcCoord src.width targetWidth x -
      (neighborIdx (srcCoord src.width targetWidth x) (src.width : ℤ) 0 : ℚ)) := by
    rw [neighborIdx_center _ _ hX0 hX1]
    apply cubicKernel_pos_of_fract
    · linarith [Int.floor_le (srcCoord src.width targetWidth x)]
    · linarith [Int.lt_floor_add_one (srcCoord src.width targetWidth x)]
  have hcy : 0 < cubicKernel (srcCoord src.height targetHeight y -
      (neighborIdx (srcCoord src.height targetHeight y) (src.height : ℤ) 0 : ℚ)) := by
    rw [neighborIdx_center _ _ hY0 hY1]
    apply cubicKernel_pos_of_fract
    · linarith [Int.floor_le (srcCoord src.height targetHeight y)]
    · linarith [Int.lt_floor_add_one (srcCoord src.height targetHeight y)]
  unfold kernelWeightSum
  apply sum_map_pos _ _ 0 (by simp [cubicOffs])
  · intro b _
    apply sum_map_nonneg
    intro d _
    exact mul_nonneg (cubicKernel_nonneg _) (cubicKernel_nonneg _)
  · apply sum_map_pos _ _ 0 (by simp [cubicOffs])
    · intro b _
      exact mul_nonneg (cubicKernel_nonneg _) (cubicKernel_nonneg _)
    · exact mul_pos hcx hcy

theorem srcCoord_zero (srcN targetN : ℕ) : srcCoord srcN targetN 0 = 0 := by
  simp [srcCoord]

theorem kernelResampleAt_one (k : ℚ → ℚ) (offs : List ℤ) (src : PixelBuffer) (c : ℕ)
    (hw : 1 ≤ src.width) (hh : 1 ≤ src.height) (hmem : (0 : ℤ) ∈ offs)
    (hk0 : k 0 = 1) (hkneg : ∀ p : ℤ, 1 ≤ p → k (-(p : ℚ)) = 0)
    (hc : src.data (c : ℤ) ≤ 255) :
    kernelResampleAt k offs src 1 1 0 0 c = src.data (c : ℤ) := by
  have hwz : (1 : ℤ) ≤ (src.width : ℤ) := by exact_mod_cast hw
  have hhz : (1 : ℤ) ≤ (src.height : ℤ) := by exact_mod_cast hh
  have hind : ∀ n : ℤ, 1 ≤ n → ∀ d : ℤ,
      k (0 - (neighborIdx 0 n d : ℚ)) = if neighborIdx 0 n d = 0 then 1 else 0 := by
    intro n hn d
    by_cases hd : neighborIdx 0 n d = 0
    · rw [hd]
      simp [hk0]
    · rw [if_neg hd]
      have h1 : 1 ≤ neighborIdx 0 n d := by
        have h2 := neighborIdx_nonneg 0 n d hn
        omega
      rw [zero_sub]
      exact hkneg _ h1
  have hcenter : ∀ n : ℤ, 1 ≤ n → neighborIdx 0 n 0 = 0 := by
    intro n hn
    have h1 : (0 : ℚ) ≤ (n : ℚ) - 1 := by
      have : (1 : ℚ) ≤ (n : ℚ) := by exact_mod_cast hn
      linarith
    rw [neighborIdx_center 0 n le_rfl h1, Int.floor_zero]
  have hposterm : 0 < k (0 - (neighborIdx 0 (src.width : ℤ) 0 : ℚ)) *
      k (0 - (neighborIdx 0 (src.height : ℤ) 0 : ℚ)) := by
    rw [hcenter _ hwz, hcenter _ hhz]
    simp [hk0]
  have hws : 0 < kernelWeightSum k offs src 0 0 := by
    unfold kernelWeightSum
    apply sum_map_pos _ _ 0 hmem
    · intro b _
      apply sum_map_nonneg
      intro d _
      rw [hind _ hwz d, hind _ hhz b]
      split_ifs <;> norm_num
    · apply sum_map_pos _ _ 0 hmem
      · intro b _
        rw [hind _ hwz b, hind _ hhz 0]
        split_ifs <;> norm_num
      · exact hposterm
  have hacc : kernelAccum k offs src 0 0 c =
      kernelWeightSum k offs src 0 0 * (src.data (c : ℤ) : ℚ) := by
    apply kernelAccum_eq_weightSum_mul
    intro dy hdy dx hdx
    by_cases hpx : neighborIdx 0 (src.width : ℤ) dx = 0
    · by_cases hpy : neighborIdx 0 (src.height : ℤ) dy = 0
      · right
        rw [hpx, hpy]
        norm_num
      · left
        rw [hind _ hhz dy, if_neg hpy, mul_zero]
    · left
      rw [hind _ hwz dx, if_neg hpx, zero_mul]
  apply kernelResampleAt_of_accum k offs src 1 1 0 0 c (src.data (c : ℤ)) hc
  · rw [srcCoord_zero, srcCoord_zero]
    exact hacc
  · rw [srcCoord_zero, srcCoord_zero]
    exact ne_of_gt hws

theorem nearestSrc_nonneg (srcN targetN i : ℕ) : 0 ≤ nearestSrc srcN targetN i := by
  unfold nearestSrc
  apply Int.le_floor.mpr
  push_cast
  positivity

theorem nearestSrc_le (srcN targetN i : ℕ) (hs : 1 ≤ srcN) (ht : 1 ≤ targetN)
    (hi : i < targetN) : nearestSrc srcN targetN i ≤ (srcN : ℤ) - 1 := by
  unfold nearestSrc
  have htq : (0 : ℚ) < (targetN : ℚ) := by exact_mod_cast Nat.lt_of_lt_of_le Nat.zero_lt_one ht
  have hsq : (1 : ℚ) ≤ (srcN : ℚ) := by exact_mod_cast hs
  have hiq : (i : ℚ) ≤ (targetN : ℚ) - 1 := by
    have : (i : ℚ) + 1 ≤ (targetN : ℚ) := by exact_mod_cast hi
    linarith
  have h1 : (i : ℚ) * ((srcN : ℚ) / (targetN : ℚ)) < (srcN : ℚ) := by
    rw [← mul_div_assoc, div_lt_iff₀ htq]
    nlinarith
  have h2 : ⌊(i : ℚ) * ((srcN : ℚ) / (targetN : ℚ))⌋ < (srcN : ℤ) :=
    Int.floor_lt.mpr (by exact_mod_cast h1)
  omega

theorem bilinearAt_bounds (src : PixelBuffer) (targetWidth targetHeight x y c : ℕ)
    (hwf : Wellformed src) (hw : 1 ≤ src.width) (hh : 1 ≤ src.height)
    (htW : 1 ≤ targetWidth) (htH : 1 ≤ targetHeight)
    (hx : x < targetWidth) (hy : y < targetHeight) (hc : c < 4) :
    0 ≤ bilinearAt src targetWidth targetHeight x y c ∧
    bilinearAt src targetWidth targetHeight x y c ≤ 255 := by
  have hwz : (1 : ℤ) ≤ (src.width : ℤ) := by exact_mod_cast hw
  have hhz : (1 : ℤ) ≤ (src.height : ℤ) := by exact_mod_cast hh
  have hcz : (c : ℤ) < 4 := by exact_mod_cast hc
  have hX0 := srcCoord_nonneg src.width targetWidth x hw htW
  have hX1 := srcCoord_le src.width targetWidth x hw htW hx
  have hY0 := srcCoord_nonneg src.height targetHeight y hh htH
  have hY1 := srcCoord_le src.height targetHeight y hh htH hy
  have hx00 := floor_srcCoord_nonneg src.width targetWidth x hw htW
  have hx01 := floor_srcCoord_le src.width targetWidth x hw htW hx
  have hy00 := floor_srcCoord_nonneg src.height targetHeight y hh htH
  have hy01 := floor_srcCoord_le src.height targetHeight y hh htH hy
  simp only [bilinearAt]
  set sX := srcCoord src.width targetWidth x with hsX
  set sY := srcCoord src.height targetHeight y with hsY
  have hx10 : 0 ≤ min (⌊sX⌋ + 1) ((src.width : ℤ) - 1) := le_min (by omega) (by omega)
  have hx11 : min (⌊sX⌋ + 1) ((src.width : ℤ) - 1) ≤ (src.width : ℤ) - 1 := min_le_right _ _
  have hy10 : 0 ≤ min (⌊sY⌋ + 1) ((src.height : ℤ) - 1) := le_min (by omega) (by omega)
  have hy11 : min (⌊sY⌋ + 1) ((src.height : ℤ) - 1) ≤ (src.height : ℤ) - 1 := min_le_right _ _
  have hfx0 : (0 : ℚ) ≤ sX - (⌊sX⌋ : ℚ) := by linarith [Int.floor_le sX]
  have hfx1 : sX - (⌊sX⌋ : ℚ) ≤ 1 := by linarith [Int.lt_floor_add_one sX]
  have hfy0 : (0 : ℚ) ≤ sY - (⌊sY⌋ : ℚ) := by linarith [Int.floor_le sY]
  have hfy1 : sY - (⌊sY⌋ : ℚ) ≤ 1 := by linarith [Int.lt_floor_add_one sY]
  have hread : ∀ i j : ℤ, 0 ≤ i → i ≤ (src.width : ℤ) - 1 → 0 ≤ j →
      j ≤ (src.height : ℤ) - 1 →
      (0 : ℚ) ≤ (src.data ((j * (src.width : ℤ) + i) * 4 + (c : ℤ)) : ℚ) ∧
      (src.data ((j * (src.width : ℤ) + i) * 4 + (c : ℤ)) : ℚ) ≤ 255 := by
    intro i j hi0 hi1 hj0 hj1
    constructor
    · positivity
    · have := hwf i j (c : ℤ) hi0 (by omega) hj0 (by omega) (by omega) hcz
      exact_mod_cast this
  obtain ⟨h00a, h00b⟩ := hread ⌊sX⌋ ⌊sY⌋ hx00 hx01 hy00 hy01
  obtain ⟨h10a, h10b⟩ := hread _ ⌊sY⌋ hx10 hx11 hy00 hy01
  obtain ⟨h01a, h01b⟩ := hread ⌊sX⌋ _ hx00 hx01 hy10 hy11
  obtain ⟨h11a, h11b⟩ := hread _ _ hx10 hx11 hy10 hy11
  obtain ⟨hv0a, hv0b⟩ := convex_bounds _ _ _ hfx0 hfx1 h00a h00b h10a h10b
  obtain ⟨hv1a, hv1b⟩ := convex_bounds _ _ _ hfx0 hfx1 h01a h01b h11a h11b
  obtain ⟨hva, hvb⟩ := convex_bounds _ _ _ hfy0 hfy1 hv0a hv0b hv1a hv1b
  exact ⟨jsRound_nonneg _ hva, jsRound_le_of_le _ 255 hvb⟩

theorem bilinearAt_uniform (src : PixelBuffer) (targetWidth targetHeight x y c : ℕ)
    (col : ℕ) (hw : 1 ≤ src.width) (hh : 1 ≤ src.height)
    (htW : 1 ≤ targetWidth) (htH : 1 ≤ targetHeight)
    (hx : x < targetWidth) (hy : y < targetHeight)
    (huni : ∀ i j : ℤ, 0 ≤ i → i < (src.width : ℤ) → 0 ≤ j → j < (src.height : ℤ) →
      src.data ((j * (src.width : ℤ) + i) * 4 + (c : ℤ)) = col) :
    bilinearAt src targetWidth targetHeight x y c = col := by
  have hx00 := floor_srcCoord_nonneg src.width targetWidth x hw htW
  have hx01 := floor_srcCoord_le src.width targetWidth x hw htW hx
  have hy00 := floor_srcCoord_nonneg src.height targetHeight y hh htH
  have hy01 := floor_srcCoord_le src.height targetHeight y hh htH hy
  simp only [bilinearAt]
  set sX := srcCoord src.width targetWidth x with hsX
  set sY := srcCoord src.height targetHeight y with hsY
  have hx10 : 0 ≤ min (⌊sX⌋ + 1) ((src.width : ℤ) - 1) := le_min (by omega) (by omega)
  have hx11 : min (⌊sX⌋ + 1) ((src.width : ℤ) - 1) ≤ (src.width : ℤ) - 1 := min_le_right _ _
  have hy10 : 0 ≤ min (⌊sY⌋ + 1) ((src.height : ℤ) - 1) := le_min (by omega) (by omega)
  have hy11 : min (⌊sY⌋ + 1) ((src.height : ℤ) - 1) ≤ (src.height : ℤ) - 1 := min_le_right _ _
  rw [huni ⌊sX⌋ ⌊sY⌋ hx00 (by omega) hy00 (by omega),
    huni _ ⌊sY⌋ hx10 (by omega) hy00 (by omega),
    huni ⌊sX⌋ _ hx00 (by omega) hy10 (by omega),
    huni _ _ hx10 (by omega) hy10 (by omega)]
  have hv : ((col : ℚ) * (1 - (sX - (⌊sX⌋ : ℚ))) + (col : ℚ) * (sX - (⌊sX⌋ : ℚ))) *
        (1 - (sY - (⌊sY⌋ : ℚ))) +
      ((col : ℚ) * (1 - (sX - (⌊sX⌋ : ℚ))) + (col : ℚ) * (sX - (⌊sX⌋ : ℚ))) *
        (sY - (⌊sY⌋ : ℚ)) = (col : ℚ) := by
    ring
  rw [hv, jsRound_natCast]

theorem bilinearAt_one (src : PixelBuffer) (c : ℕ) :
    bilinearAt src 1 1 0 0 c = src.data (c : ℤ) := by
  simp only [bilinearAt, srcCoord_zero, Int.floor_zero]
  norm_num [jsRound_natCast]

/-!
## Claim theorems
-/

theorem qTruthy_some_iff (q : ℚ) : qTruthy (some q) = true ↔ q ≠ 0 := by
  simp [qTruthy]

theorem qTruthy_none_eq : qTruthy none = false := rfl

/-- C1: the claim says `calculateDimensions` returns `width ≥ 1` and
`height ≥ 1` for every source `≥ 1 × ≥ 1` and every options record that
passes validation, naming the `1000×1` source with
`{width: 400, height: 400, fit: 'contain'}` as an instance.  The code
refutes exactly that instance: the options validate, yet
`fitContain(1000, 1, 400, 400)` takes the `srcAspect > targetAspect`
branch and returns `height = Math.round(400 / 1000) = 0`, so the spec's
`TargetDimensions` positivity invariant is violated by the code. -/
theorem contain_zero_height_on_validated_input :
    validateOptions ⟨some 400, some 400, none, none, some "contain", none, none⟩ = [] ∧
    calculateDimensions 1000 1 ⟨some 400, some 400, none, none, some "contain", none, none⟩ =
      ⟨400, 0⟩ ∧
    ¬ (1 ≤ (calculateDimensions 1000 1
        ⟨some 400, some 400, none, none, some "contain", none, none⟩).height) := by
  have heval : calculateDimensions 1000 1
      ⟨some 400, some 400, none, none, some "contain", none, none⟩ = ⟨400, 0⟩ := by
    norm_num +decide [calculateDimensions, step4Dims, fitContain, qTruthy, jsRound]
  refine ⟨by norm_num [validateOptions], heval, ?_⟩
  rw [heval]
  norm_num

/-- C3 counterexample: the claim says the cover fit on a `400×400` box
returns dimensions whose aspect ratio equals `srcW/srcH` exactly.  For
the `3×7` source the code returns `400×933`
(`Math.round(400 / (3/7)) = Math.round(933.33…) = 933`), and
`400/933 ≠ 3/7`. -/
theorem cover_exact_aspect_fails :
    calculateDimensions 3 7 ⟨some 400, some 400, none, none, some "cover", none, none⟩ =
      ⟨400, 933⟩ ∧
    (400 : ℚ) / 933 ≠ 3 / 7 := by
  constructor
  · norm_num +decide [calculateDimensions, step4Dims, fitCover, qTruthy, jsRound]
  · norm_num

/-- C3 amended: for `srcW ≠ srcH` (both `≥ 1`), cover with a `400×400` box
returns dimensions whose minimum is exactly `400` and whose other
dimension is the `Math.round` of the exact aspect-preserving value
(`400*srcW/srcH`, resp. `400*srcH/srcW`) — the aspect ratio is preserved
up to that rounding, not exactly. -/
theorem cover_min400_and_rounded_aspect (srcW srcH : ℕ) (hsW : 1 ≤ srcW) (hsH : 1 ≤ srcH)
    (hne : srcW ≠ srcH) :
    min (calculateDimensions srcW srcH
        ⟨some 400, some 400, none, none, some "cover", none, none⟩).width
      (calculateDimensions srcW srcH
        ⟨some 400, some 400, none, none, some "cover", none, none⟩).height = 400 ∧
    (srcH < srcW → calculateDimensions srcW srcH
        ⟨some 400, some 400, none, none, some "cover", none, none⟩ =
      ⟨((jsRound (400 * (srcW : ℚ) / (srcH : ℚ)) : ℤ) : ℚ), 400⟩) ∧
    (srcW < srcH → calculateDimensions srcW srcH
        ⟨some 400, some 400, none, none, some "cover", none, none⟩ =
      ⟨400, ((jsRound (400 * (srcH : ℚ) / (srcW : ℚ)) : ℤ) : ℚ)⟩) := by
  have hWq : (1 : ℚ) ≤ (srcW : ℚ) := by exact_mod_cast hsW
  have hHq : (1 : ℚ) ≤ (srcH : ℚ) := by exact_mod_cast hsH
  have hW0 : (0 : ℚ) < (srcW : ℚ) := by linarith
  have hH0 : (0 : ℚ) < (srcH : ℚ) := by linarith
  have hstep : calculateDimensions srcW srcH
      ⟨some 400, some 400, none, none, some "cover", none, none⟩ =
      fitCover srcW srcH 400 400 := by
    norm_num +decide [calculateDimensions, step4Dims, qTruthy]
  rw [hstep]
  unfold fitCover
  rcases lt_trichotomy srcH srcW with h | h | h
  · have h1 : (1 : ℚ) < (srcW : ℚ) / (srcH : ℚ) :=
      (one_lt_div hH0).mpr (by exact_mod_cast h)
    have hgt : (srcW : ℚ) / (srcH : ℚ) > (400 : ℚ) / 400 := by
      rw [show (400 : ℚ) / 400 = 1 by norm_num]
      exact h1
    rw [if_pos hgt]
    have hform : (400 : ℚ) * ((srcW : ℚ) / (srcH : ℚ)) = 400 * (srcW : ℚ) / (srcH : ℚ) :=
      (mul_div_assoc _ _ _).symm
    dsimp only
    rw [hform]
    have hge : (400 : ℤ) ≤ jsRound (400 * ((srcW : ℚ) / (srcH : ℚ))) := by
      apply le_jsRound_of_le
      push_cast
      nlinarith
    have hgeq : (400 : ℚ) ≤ ((jsRound (400 * ((srcW : ℚ) / (srcH : ℚ))) : ℤ) : ℚ) := by
      exact_mod_cast hge
    rw [hform] at hgeq hge
    refine ⟨min_eq_right hgeq, fun _ => rfl, fun hcon => absurd hcon (by omega)⟩
  · exact absurd h.symm hne
  · have h1 : (srcW : ℚ) / (srcH : ℚ) < 1 :=
      (div_lt_one hH0).mpr (by exact_mod_cast h)
    have hle : ¬((srcW : ℚ) / (srcH : ℚ) > (400 : ℚ) / 400) := by
      rw [show (400 : ℚ) / 400 = 1 by norm_num]
      exact not_lt.mpr (le_of_lt h1)
    rw [if_neg hle]
    have hform : (400 : ℚ) / ((srcW : ℚ) / (srcH : ℚ)) = 400 * (srcH : ℚ) / (srcW : ℚ) := by
      rw [div_div_eq_mul_div]
    dsimp only
    rw [hform]
    have h2 : (1 : ℚ) < (srcH : ℚ) / (srcW : ℚ) :=
      (one_lt_div hW0).mpr (by exact_mod_cast h)
    have hge : (400 : ℤ) ≤ jsRound ((400 : ℚ) / ((srcW : ℚ) / (srcH : ℚ))) := by
      apply le_jsRound_of_le
      rw [hform, mul_div_assoc]
      push_cast
      nlinarith
    have hgeq : (400 : ℚ) ≤ ((jsRound ((400 : ℚ) / ((srcW : ℚ) / (srcH : ℚ))) : ℤ) : ℚ) := by
      exact_mod_cast hge
    rw [hform] at hgeq hge
    refine ⟨min_eq_left hgeq, fun hcon => absurd hcon (by omega), fun _ => rfl⟩

/-- C3 amended, witnessed at the `3×7` source: the minimum of the returned
cover dimensions is `400`, and the height is the rounded
aspect-preserving value `933`. -/
theorem cover_min400_witness :
    min (calculateDimensions 3 7
        ⟨some 400, some 400, none, none, some "cover", none, none⟩).width
      (calculateDimensions 3 7
        ⟨some 400, some 400, none, none, some "cover", none, none⟩).height = 400 ∧
    calculateDimensions 3 7 ⟨some 400, some 400, none, none, some "cover", none, none⟩ =
      ⟨400, ((jsRound (400 * (7 : ℚ) / (3 : ℚ)) : ℤ) : ℚ)⟩ := by
  have h := cover_min400_and_rounded_aspect 3 7 (by norm_num) (by norm_num) (by norm_num)
  exact ⟨h.1, h.2.2 (by norm_num)⟩

/-- C4: the fit dispatch of `calculateDimensions` applies `fitCover` /
`fitContain` only when the original `options.width && options.height` is
truthy; without both, the step-4 values stand for every `fit` value; with
both and `fit = 'fill'` the step-4 values are returned unchanged; and in
particular `{width: 400, height: 400, fit: 'fill'}` yields exactly
`(400, 400)` for every positive source. -/
theorem fit_only_when_both_requested :
    (∀ (srcWidth srcHeight : ℚ) (o : ResizeOptions), o.width = none ∨ o.height = none →
      calculateDimensions srcWidth srcHeight o =
        ⟨(step4Dims srcWidth srcHeight o).1, (step4Dims srcWidth srcHeight o).2⟩) ∧
    (∀ (srcWidth srcHeight : ℚ) (o : ResizeOptions),
      qTruthy o.width = true → qTruthy o.height = true → o.fit = some "fill" →
      calculateDimensions srcWidth srcHeight o =
        ⟨(step4Dims srcWidth srcHeight o).1, (step4Dims srcWidth srcHeight o).2⟩) ∧
    (∀ srcWidth srcHeight : ℚ, 0 < srcWidth → 0 < srcHeight →
      calculateDimensions srcWidth srcHeight
        ⟨some 400, some 400, none, none, some "fill", none, none⟩ = ⟨400, 400⟩) := by
  refine ⟨?_, ?_, ?_⟩
  · intro sw sh o h
    simp only [calculateDimensions]
    split_ifs with h1 h2
    · exfalso
      rcases h with h | h
      · rw [h] at h1
        exact absurd h1.1 (by simp [qTruthy])
      · rw [h] at h1
        exact absurd h1.2.1 (by simp [qTruthy])
    · exfalso
      rcases h with h | h
      · rw [h] at h2
        exact absurd h2.1 (by simp [qTruthy])
      · rw [h] at h2
        exact absurd h2.2.1 (by simp [qTruthy])
    all_goals rfl
  · intro sw sh o hw hh hf
    simp only [calculateDimensions]
    split_ifs with h1 h2
    · exfalso
      rw [hf] at h1
      simp at h1
    · exfalso
      rw [hf] at h2
      simp at h2
    all_goals rfl
  · intro sw sh h0w h0h
    norm_num +decide [calculateDimensions, step4Dims, qTruthy]

/-- C4 witness at a concrete input: the fill example with a `5×7` source. -/
theorem fit_only_witness :
    calculateDimensions 5 7 ⟨some 400, some 400, none, none, some "fill", none, none⟩ =
      ⟨400, 400⟩ :=
  fit_only_when_both_requested.2.2 5 7 (by norm_num) (by norm_num)

theorem calcDim_scale_formula (srcW srcH : ℕ) (s : ℚ) (o : ResizeOptions)
    (hsW : 1 ≤ srcW) (hsH : 1 ≤ srcH) (hs : 0 < s)
    (hwn : o.width = none) (hhn : o.height = none) (hsc : o.scale = some s)
    (h1 : 1 ≤ jsRound ((srcW : ℚ) * s)) (h2 : 1 ≤ jsRound ((srcH : ℚ) * s)) :
    calculateDimensions srcW srcH o =
      ⟨((jsRound ((srcW : ℚ) * s) : ℤ) : ℚ), ((jsRound ((srcH : ℚ) * s) : ℤ) : ℚ)⟩ := by
  have hts : qTruthy (some s) = true := (qTruthy_some_iff s).mpr hs.ne'
  have htW : qTruthy (some ((jsRound ((srcW : ℚ) * s) : ℤ) : ℚ)) = true := by
    rw [qTruthy_some_iff]
    intro h0
    have hz : jsRound ((srcW : ℚ) * s) = 0 := by exact_mod_cast h0
    omega
  have htH : qTruthy (some ((jsRound ((srcH : ℚ) * s) : ℤ) : ℚ)) = true := by
    rw [qTruthy_some_iff]
    intro h0
    have hz : jsRound ((srcH : ℚ) * s) = 0 := by exact_mod_cast h0
    omega
  simp [calculateDimensions, step4Dims, hts, hsc, hwn, hhn, htW, htH, qTruthy_none_eq]

/-- C5 counterexample: with `srcW = srcH = 1` and `scale = 0.1` the claimed
value `round(srcW*scale) = 0` differs from what the code returns: the
rounded `0` is falsy, so the defaulting step replaces it with the source
dimension and the call returns `(1, 1)`, not `(0, 0)`. -/
theorem scale_round_to_zero_breaks_formula :
    calculateDimensions 1 1 ⟨none, none, some (1 / 10), none, none, none, none⟩ = ⟨1, 1⟩ ∧
    jsRound ((1 : ℚ) * (1 / 10)) = 0 ∧
    (⟨1, 1⟩ : Dimensions) ≠ ⟨((jsRound ((1 : ℚ) * (1 / 10)) : ℤ) : ℚ),
      ((jsRound ((1 : ℚ) * (1 / 10)) : ℤ) : ℚ)⟩ := by
  have h0 : jsRound ((1 : ℚ) * (1 / 10)) = 0 := by norm_num [jsRound]
  refine ⟨?_, h0, ?_⟩
  · norm_num +decide [calculateDimensions, step4Dims, qTruthy, jsRound]
  · rw [h0]
    simp [Dimensions.mk.injEq]

/-- C5 amended: when both `round(srcW*scale)` and `round(srcH*scale)` are
at least `1`, an options record with a positive `scale` and no `width` /
`height` yields exactly `(round(srcW*scale), round(srcH*scale))` whatever
its other fields; a dimension whose round is `0` instead falls back to
the source dimension (see the C10 theorem).  The claim's instances hold:
`scale = 1` returns the source size, `plan(100,100,{scale:2.5}) =
(250,250)` and `plan(100,100,{scale:0.5}) = (50,50)`. -/
theorem scale_formula_when_rounds_positive :
    (∀ (srcW srcH : ℕ) (s : ℚ) (o : ResizeOptions), 1 ≤ srcW → 1 ≤ srcH → 0 < s →
      o.width = none → o.height = none → o.scale = some s →
      1 ≤ jsRound ((srcW : ℚ) * s) → 1 ≤ jsRound ((srcH : ℚ) * s) →
      calculateDimensions srcW srcH o =
        ⟨((jsRound ((srcW : ℚ) * s) : ℤ) : ℚ), ((jsRound ((srcH : ℚ) * s) : ℤ) : ℚ)⟩) ∧
    (∀ srcW srcH : ℕ, 1 ≤ srcW → 1 ≤ srcH →
      calculateDimensions srcW srcH ⟨none, none, some 1, none, none, none, none⟩ =
        ⟨srcW, srcH⟩) ∧
    calculateDimensions 100 100 ⟨none, none, some (5 / 2), none, none, none, none⟩ =
      ⟨250, 250⟩ ∧
    calculateDimensions 100 100 ⟨none, none, some (1 / 2), none, none, none, none⟩ =
      ⟨50, 50⟩ := by
  refine ⟨fun srcW srcH s o h1 h2 h3 h4 h5 h6 h7 h8 =>
    calcDim_scale_formula srcW srcH s o h1 h2 h3 h4 h5 h6 h7 h8, ?_, ?_, ?_⟩
  · intro srcW srcH h1 h2
    have hrW : jsRound ((srcW : ℚ) * 1) = srcW := by rw [mul_one, jsRound_natCast]
    have hrH : jsRound ((srcH : ℚ) * 1) = srcH := by rw [mul_one, jsRound_natCast]
    have h := calcDim_scale_formula srcW srcH 1 ⟨none, none, some 1, none, none, none, none⟩
      h1 h2 one_pos rfl rfl rfl (by omega) (by omega)
    rw [h, hrW, hrH]
    simp
  · norm_num +decide [calculateDimensions, step4Dims, qTruthy, jsRound]
  · norm_num +decide [calculateDimensions, step4Dims, qTruthy, jsRound]

/-- C5 amended witness: the `scale = 2.5` instance realized through the
quantified formula at `srcW = srcH = 100`. -/
theorem scale_formula_witness :
    calculateDimensions 100 100 ⟨none, none, some (5 / 2), none, none, none, none⟩ =
      ⟨((jsRound ((100 : ℚ) * (5 / 2)) : ℤ) : ℚ), ((jsRound ((100 : ℚ) * (5 / 2)) : ℤ) : ℚ)⟩ :=
  scale_formula_when_rounds_positive.1 100 100 (5 / 2)
    ⟨none, none, some (5 / 2), none, none, none, none⟩ (by norm_num) (by norm_num)
    (by norm_num) rfl rfl rfl (by norm_num [jsRound]) (by norm_num [jsRound])

/-- C10: in `calculateDimensions`, a dimension computed as `0` by the scale
step is falsy and therefore treated as unset by the defaulting step: with
only a positive `scale` present, if `round(srcW*scale) = 0` the returned
width is `srcW`, and symmetrically for the height. -/
theorem zero_round_defaults_to_source (srcW srcH : ℕ) (s : ℚ) (hsW : 1 ≤ srcW)
    (hsH : 1 ≤ srcH) (hs : 0 < s) :
    (jsRound ((srcW : ℚ) * s) = 0 →
      (calculateDimensions srcW srcH ⟨none, none, some s, none, none, none, none⟩).width =
        srcW) ∧
    (jsRound ((srcH : ℚ) * s) = 0 →
      (calculateDimensions srcW srcH ⟨none, none, some s, none, none, none, none⟩).height =
        srcH) := by
  have hts : qTruthy (some s) = true := (qTruthy_some_iff s).mpr hs.ne'
  constructor
  · intro h0
    have htW : qTruthy (some ((jsRound ((srcW : ℚ) * s) : ℤ) : ℚ)) = false := by
      rw [h0]
      simp [qTruthy]
    simp [calculateDimensions, step4Dims, hts, htW, qTruthy_none_eq]
  · intro h0
    have htH : qTruthy (some ((jsRound ((srcH : ℚ) * s) : ℤ) : ℚ)) = false := by
      rw [h0]
      simp [qTruthy]
    simp [calculateDimensions, step4Dims, hts, htH, qTruthy_none_eq]

/-- C10 witness: `srcW = srcH = 1`, `scale = 0.1` rounds both dimensions to
`0`, and the call returns the source dimensions. -/
theorem zero_round_witness :
    (calculateDimensions 1 1 ⟨none, none, some (1 / 10), none, none, none, none⟩).width = 1 ∧
    (calculateDimensions 1 1 ⟨none, none, some (1 / 10), none, none, none, none⟩).height = 1 := by
  have h := zero_round_defaults_to_source 1 1 (1 / 10) (by norm_num) (by norm_num) (by norm_num)
  exact ⟨h.1 (by norm_num [jsRound]), h.2 (by norm_num [jsRound])⟩

/-- C6 counterexample: two present fields violate their claimed rules yet
validate.  A present but *empty* `fit` string is falsy in JavaScript, so
`validateOptions` skips the membership check although `""` is not one of
`{cover, contain, fill}`; and `algorithm: "toString"` validates because
`this.algorithms["toString"]` finds the truthy inherited
`Object.prototype.toString`, although `"toString"` is not one of the four
algorithm names — refuting the claimed "empty iff every present field
satisfies its rule" in both directions it constrains. -/
theorem empty_fit_passes_validation :
    validateOptions ⟨none, none, none, none, some "", none, none⟩ = [] ∧
    "" ∉ (["cover", "contain", "fill"] : List String) ∧
    validateOptions ⟨none, none, none, none, none, some "toString", none⟩ = [] ∧
    "toString" ∉ (["nearest", "bilinear", "bicubic", "lanczos"] : List String) := by
  refine ⟨?_, by decide, ?_, by decide⟩
  · norm_num [validateOptions]
  · norm_num [validateOptions, objectPrototypeKeys]

/-- C6 amended: `validateOptions` returns `[]` iff every present numeric
field is positive (quality within `[0,1]`), `fit`, when present *and
non-empty*, is one of `{cover, contain, fill}`, and `algorithm`, when
present, non-empty *and not a property name inherited from
`Object.prototype`*, is one of the four algorithm names.  The non-empty
provisos are forced by the JavaScript truthiness tests
(`options.fit && …`), and the prototype-key proviso by the
`this.algorithms[options.algorithm]` object lookup, which walks the
prototype chain.  The claim's instances hold: `{}` validates to `[]` and
`{width: -100}` produces the width error message. -/
theorem validateOptions_empty_iff_rules :
    (∀ o : ResizeOptions, validateOptions o = [] ↔
      ((∀ w, o.width = some w → 0 < w) ∧ (∀ h, o.height = some h → 0 < h) ∧
       (∀ s, o.scale = some s → 0 < s) ∧ (∀ a, o.aspectRatio = some a → 0 < a) ∧
       (∀ f, o.fit = some f → f ≠ "" → f ∈ (["cover", "contain", "fill"] : List String)) ∧
       (∀ g, o.algorithm = some g → g ≠ "" → g ∉ objectPrototypeKeys →
         g ∈ (["nearest", "bilinear", "bicubic", "lanczos"] : List String)) ∧
       (∀ q, o.quality = some q → 0 ≤ q ∧ q ≤ 1))) ∧
    validateOptions ⟨none, none, none, none, none, none, none⟩ = [] ∧
    "width must be a positive number" ∈
      validateOptions ⟨some (-100), none, none, none, none, none, none⟩ := by
  refine ⟨?_, by norm_num [validateOptions], by norm_num [validateOptions]⟩
  rintro ⟨w, h, s, ar, f, alg, q⟩
  simp only [validateOptions, List.append_eq_nil, and_assoc]
  refine and_congr ?_ (and_congr ?_ (and_congr ?_ (and_congr ?_ (and_congr ?_
    (and_congr ?_ ?_)))))
  · cases w <;> simp [not_le]
  · cases h <;> simp [not_le]
  · cases s <;> simp [not_le]
  · cases ar <;> simp [not_le]
  · cases f with
    | none => simp
    | some v =>
        simp only [Option.some.injEq, forall_eq']
        constructor
        · intro h1 hne
          by_contra hmem
          simp [hne, hmem] at h1
        · intro h1
          by_cases hne : v = ""
          · simp [hne]
          · simp [hne, h1 hne]
  · cases alg with
    | none => simp
    | some v =>
        simp only [Option.some.injEq, forall_eq']
        constructor
        · intro h1 hne hnp
          by_contra hmem
          simp [hne, hmem, hnp] at h1
        · intro h1
          by_cases hne : v = ""
          · simp [hne]
          · by_cases hnp : v ∈ objectPrototypeKeys
            · simp [hnp]
            · simp [hne, hnp, h1 hne hnp]
  · cases q with
    | none => simp
    | some v =>
        simp only [Option.some.injEq, forall_eq']
        constructor
        · intro h1
          constructor
          · by_contra hlt
            simp [not_le] at hlt
            simp [hlt] at h1
          · by_contra hlt
            simp [not_le] at hlt
            simp [hlt] at h1
        · intro h1
          simp [not_lt.mpr h1.1, not_lt.mpr h1.2]

/-- C2: each per-channel output value of the bilinear, bicubic and lanczos
resamplers lies in `[0, 255]` (as an integer, i.e. already rounded).  For
bilinear there is no clamp in the source, but the blend is a convex
combination of in-range source bytes, so `Math.round` of it stays in
range; bicubic and lanczos clamp explicitly, so their bound holds for
every input — for lanczos even for every `sinc` function, covering the
source's transcendental one. -/
theorem resamplers_clamped_to_byte_range :
    (∀ (src : PixelBuffer) (targetWidth targetHeight x y c : ℕ), Wellformed src →
      1 ≤ src.width → 1 ≤ src.height → 1 ≤ targetWidth → 1 ≤ targetHeight →
      x < targetWidth → y < targetHeight → c < 4 →
      0 ≤ bilinearAt src targetWidth targetHeight x y c ∧
      bilinearAt src targetWidth targetHeight x y c ≤ 255) ∧
    (∀ (src : PixelBuffer) (targetWidth targetHeight x y c : ℕ),
      0 ≤ bicubicAt src targetWidth targetHeight x y c ∧
      bicubicAt src targetWidth targetHeight x y c ≤ 255) ∧
    (∀ (sinc : ℚ → ℚ) (src : PixelBuffer) (targetWidth targetHeight x y c : ℕ),
      0 ≤ lanczosAt sinc src targetWidth targetHeight x y c ∧
      lanczosAt sinc src targetWidth targetHeight x y c ≤ 255) :=
  ⟨fun src targetWidth targetHeight x y c hwf hw hh htW htH hx hy hc =>
      bilinearAt_bounds src targetWidth targetHeight x y c hwf hw hh htW htH hx hy hc,
   fun src targetWidth targetHeight x y c =>
      kernelResampleAt_bounds cubicKernel cubicOffs src targetWidth targetHeight x y c,
   fun sinc src targetWidth targetHeight x y c =>
      kernelResampleAt_bounds (lanczosKernel sinc) lanczosOffs src targetWidth targetHeight x y c⟩

/-- C2 witness: the bilinear bound instantiated on a concrete wellformed
`1×1` buffer upscaled to `2×2`. -/
theorem resamplers_clamped_witness :
    0 ≤ bilinearAt ⟨1, 1, fun _ => 200⟩ 2 2 1 1 0 ∧
    bilinearAt ⟨1, 1, fun _ => 200⟩ 2 2 1 1 0 ≤ 255 :=
  resamplers_clamped_to_byte_range.1 ⟨1, 1, fun _ => 200⟩ 2 2 1 1 0
    (fun i j c _ _ _ _ _ _ => by norm_num) (by norm_num) (by norm_num) (by norm_num)
    (by norm_num) (by norm_num) (by norm_num) (by norm_num)

/-- C7: resampling any wellformed source to a `1×1` target succeeds for
bilinear, bicubic and lanczos, and the single output pixel equals the
source's top-left pixel in every channel: the `(target - 1 || 1)` guard
makes both source coordinates collapse to `0`.  The lanczos conjunct
holds for every `sinc` with `sinc(-1) = sinc(-2) = 0`, which the source's
`sin(πx)/(πx)` satisfies. -/
theorem one_by_one_target_top_left :
    ∀ (src : PixelBuffer) (c : ℕ), Wellformed src → 1 ≤ src.width → 1 ≤ src.height →
      c < 4 →
      bilinearAt src 1 1 0 0 c = src.data (c : ℤ) ∧
      bicubicAt src 1 1 0 0 c = src.data (c : ℤ) ∧
      (∀ sinc : ℚ → ℚ, sinc (-1) = 0 → sinc (-2) = 0 →
        lanczosAt sinc src 1 1 0 0 c = src.data (c : ℤ)) := by
  intro src c hwf hw hh hc
  have hc255 : src.data (c : ℤ) ≤ 255 := by
    have h := hwf 0 0 (c : ℤ) le_rfl (by exact_mod_cast hw) le_rfl (by exact_mod_cast hh)
      (by positivity) (by exact_mod_cast hc)
    norm_num at h
    exact h
  refine ⟨bilinearAt_one src c, ?_, ?_⟩
  · simp only [bicubicAt]
    exact kernelResampleAt_one cubicKernel cubicOffs src c hw hh (by norm_num [cubicOffs])
      cubicKernel_zero cubicKernel_neg_int hc255
  · intro sinc hs1 hs2
    simp only [lanczosAt]
    exact kernelResampleAt_one (lanczosKernel sinc) lanczosOffs src c hw hh
      (by norm_num [lanczosOffs]) (lanczosKernel_zero sinc)
      (fun p hp => lanczosKernel_neg_int sinc hs1 hs2 p hp) hc255

/-- C7 witness: a concrete `2×2` constant-7 buffer resampled to `1×1` gives
`7` with all three strategies (lanczos with a concrete `sinc` vanishing
at `-1` and `-2`). -/
theorem one_by_one_witness :
    bilinearAt ⟨2, 2, fun _ => 7⟩ 1 1 0 0 0 = 7 ∧
    bicubicAt ⟨2, 2, fun _ => 7⟩ 1 1 0 0 0 = 7 ∧
    lanczosAt (fun _ => 0) ⟨2, 2, fun _ => 7⟩ 1 1 0 0 0 = 7 := by
  have h := one_by_one_target_top_left ⟨2, 2, fun _ => 7⟩ 0
    (fun i j c _ _ _ _ _ _ => by norm_num) (by norm_num) (by norm_num) (by norm_num)
  exact ⟨h.1, h.2.1, h.2.2 (fun _ => 0) rfl rfl⟩

/-- C8: for every source and target of positive dimensions and every
output pixel, the nearest-neighbor indices
`srcX = floor(x * srcW/targetW)` and `srcY = floor(y * srcH/targetH)`
satisfy `0 ≤ srcX ≤ srcW - 1` and `0 ≤ srcY ≤ srcH - 1` without any
clamping, and the output bytes are the source pixel's bytes verbatim. -/
theorem nearest_indices_in_bounds_verbatim :
    ∀ (src : PixelBuffer) (targetWidth targetHeight x y : ℕ),
      1 ≤ src.width → 1 ≤ src.height → 1 ≤ targetWidth → 1 ≤ targetHeight →
      x < targetWidth → y < targetHeight →
      (0 ≤ nearestSrc src.width targetWidth x ∧
        nearestSrc src.width targetWidth x ≤ (src.width : ℤ) - 1) ∧
      (0 ≤ nearestSrc src.height targetHeight y ∧
        nearestSrc src.height targetHeight y ≤ (src.height : ℤ) - 1) ∧
      (∀ c : ℕ, c < 4 → nearestNeighborAt src targetWidth targetHeight x y c =
        src.data ((nearestSrc src.height targetHeight y * (src.width : ℤ) +
          nearestSrc src.width targetWidth x) * 4 + (c : ℤ))) := by
  intro src targetWidth targetHeight x y hw hh htW htH hx hy
  exact ⟨⟨nearestSrc_nonneg _ _ _, nearestSrc_le _ _ _ hw htW hx⟩,
    ⟨nearestSrc_nonneg _ _ _, nearestSrc_le _ _ _ hh htH hy⟩,
    fun c _ => rfl⟩

/-- C8 witness: a `3×2` buffer downsampled to `2×2` at output pixel
`(1, 1)`: the computed indices are in bounds and the byte is copied
verbatim. -/
theorem nearest_witness :
    (0 ≤ nearestSrc 3 2 1 ∧ nearestSrc 3 2 1 ≤ (3 : ℤ) - 1) ∧
    nearestNeighborAt ⟨3, 2, fun _ => 9⟩ 2 2 1 1 0 = 9 := by
  have h := nearest_indices_in_bounds_verbatim ⟨3, 2, fun _ => 9⟩ 2 2 1 1
    (by norm_num) (by norm_num) (by norm_num) (by norm_num) (by norm_num) (by norm_num)
  exact ⟨h.1, by rw [h.2.2 0 (by norm_num)]⟩

/-- C9: resampling a uniform-color source preserves the color exactly at
every output pixel and channel, for all four strategies.  Nearest copies
a source byte; bilinear's convex blend of equal bytes is that byte;
bicubic normalizes by a weight sum proved strictly positive (the source's
cubic kernel is nonnegative with a positive central tap); lanczos is
proved for every `sinc` function at every pixel whose kernel weight sum
is nonzero — the normalization `u * S / S = u` needs only that, and the
source's transcendental `sinc` has no exact rational embedding in which
`S ≠ 0` could be discharged once and for all. -/
theorem uniform_color_preserved :
    ∀ (src : PixelBuffer) (targetWidth targetHeight : ℕ) (col : ℕ → ℕ),
      1 ≤ src.width → 1 ≤ src.height → 1 ≤ targetWidth → 1 ≤ targetHeight →
      (∀ (i j : ℤ) (cc : ℕ), cc < 4 → 0 ≤ i → i < (src.width : ℤ) → 0 ≤ j →
        j < (src.height : ℤ) → src.data ((j * (src.width : ℤ) + i) * 4 + (cc : ℤ)) = col cc) →
      (∀ cc : ℕ, cc < 4 → col cc ≤ 255) →
      ∀ x y c : ℕ, x < targetWidth → y < targetHeight → c < 4 →
        nearestNeighborAt src targetWidth targetHeight x y c = col c ∧
        bilinearAt src targetWidth targetHeight x y c = col c ∧
        bicubicAt src targetWidth targetHeight x y c = col c ∧
        (∀ sinc : ℚ → ℚ,
          kernelWeightSum (lanczosKernel sinc) lanczosOffs src
            (srcCoord src.width targetWidth x) (srcCoord src.height targetHeight y) ≠ 0 →
          lanczosAt sinc src targetWidth targetHeight x y c = col c) := by
  intro src targetWidth targetHeight col hw hh htW htH huniform hcol x y c hx hy hc
  have huni : ∀ i j : ℤ, 0 ≤ i → i < (src.width : ℤ) → 0 ≤ j → j < (src.height : ℤ) →
      src.data ((j * (src.width : ℤ) + i) * 4 + (c : ℤ)) = col c :=
    fun i j hi0 hi1 hj0 hj1 => huniform i j c hc hi0 hi1 hj0 hj1
  refine ⟨?_, ?_, ?_, ?_⟩
  · have hX0 := nearestSrc_nonneg src.width targetWidth x
    have hX1 := nearestSrc_le src.width targetWidth x hw htW hx
    have hY0 := nearestSrc_nonneg src.height targetHeight y
    have hY1 := nearestSrc_le src.height targetHeight y hh htH hy
    exact huni _ _ hX0 (by omega) hY0 (by omega)
  · exact bilinearAt_uniform src targetWidth targetHeight x y c (col c)
      hw hh htW htH hx hy huni
  · simp only [bicubicAt]
    exact kernelResampleAt_uniform cubicKernel cubicOffs src targetWidth targetHeight
      x y c (col c) hw hh huni (hcol c hc)
      (ne_of_gt (cubicWeightSum_pos src targetWidth targetHeight x y hw hh htW htH hx hy))
  · intro sinc hws
    simp only [lanczosAt]
    exact kernelResampleAt_uniform (lanczosKernel sinc) lanczosOffs src targetWidth
      targetHeight x y c (col c) hw hh huni (hcol c hc) hws

/-- C9 witness: a constant-10 `1×1` buffer upscaled to `2×2` stays 10 under
all four strategies; the lanczos weight sum for the constant-one `sinc`
is nonzero at the witnessed pixel. -/
theorem uniform_color_witness :
    nearestNeighborAt ⟨1, 1, fun _ => 10⟩ 2 2 0 0 0 = 10 ∧
    bilinearAt ⟨1, 1, fun _ => 10⟩ 2 2 0 0 0 = 10 ∧
    bicubicAt ⟨1, 1, fun _ => 10⟩ 2 2 0 0 0 = 10 ∧
    lanczosAt (fun _ => 1) ⟨1, 1, fun _ => 10⟩ 2 2 0 0 0 = 10 := by
  have h := uniform_color_preserved ⟨1, 1, fun _ => 10⟩ 2 2 (fun _ => 10)
    (by norm_num) (by norm_num) (by norm_num) (by norm_num)
    (fun i j cc _ _ _ _ _ => rfl) (fun cc _ => by norm_num)
    0 0 0 (by norm_num) (by norm_num) (by norm_num)
  refine ⟨h.1, h.2.1, h.2.2.1, h.2.2.2 (fun _ => 1) ?_⟩
  norm_num [kernelWeightSum, lanczosOffs, neighborIdx, clampIdx, srcCoord, orOne, lanczosKernel]
